import Mathlib

/-!
A verification development for a small deterministic feature-flag engine
(`hash.js`, `InMemoryFlagStore.js` and the `FeatureFlagClient`).

The JavaScript sources are embedded shallowly:

* JavaScript values are modelled by `JSVal` (numbers are modelled as
  integers; floating-point values such as `NaN`, `Infinity` or fractional
  numbers are outside the model).
* Property access `v.p` is modelled by `getProp`, which raises the
  `TypeError` that JavaScript raises when `v` is `null` or `undefined`;
  fallible computations live in `Except String`.
* `===` is modelled by `strictEq`; distinct arrays/objects compare by
  reference in JavaScript, and condition values and context values come
  from different allocations, so `strictEq` on composite values is `false`.
* Strings are hashed over their UTF-16 code units, as
  `String.prototype.charCodeAt` does.
-/

namespace FeatureFlags

/-- A JavaScript value, as stored in flag definitions and contexts. -/
inductive JSVal : Type where
  | undefined
  | null
  | bool (b : Bool)
  | num (n : Int)
  | str (s : String)
  | arr (elems : List JSVal)
  | obj (fields : List (String × JSVal))

/-- JavaScript truthiness (`!!v`). -/
def truthy : JSVal → Bool
  | .undefined => false
  | .null => false
  | .bool b => b
  | .num n => n != 0
  | .str s => s != ""
  | .arr _ => true
  | .obj _ => true

/-- `v` is `null` or `undefined` (property access on it throws). -/
def nullish : JSVal → Bool
  | .undefined => true
  | .null => true
  | _ => false

/-- The JavaScript `typeof` operator on the modelled values. -/
def typeof : JSVal → String
  | .undefined => "undefined"
  | .null => "object"
  | .bool _ => "boolean"
  | .num _ => "number"
  | .str _ => "string"
  | .arr _ => "object"
  | .obj _ => "object"

/-- Is the value a number (`typeof v === "number"`)? -/
def isNum : JSVal → Bool
  | .num _ => true
  | _ => false

/-- Total property read: the field of an object (first binding wins,
JavaScript objects cannot hold duplicate keys), `length` of an array,
`undefined` in every other case. -/
def getPropD (v : JSVal) (p : String) : JSVal :=
  match v with
  | .obj fields => (fields.lookup p).getD .undefined
  | .arr xs => if p = "length" then .num xs.length else .undefined
  | _ => .undefined

/-- JavaScript property access `v.p`: a `TypeError` on `null`/`undefined`,
otherwise `getPropD`. -/
def getProp (v : JSVal) (p : String) : Except String JSVal :=
  match v with
  | .undefined => .error ("TypeError: Cannot read properties of undefined (reading " ++ p ++ ")")
  | .null => .error ("TypeError: Cannot read properties of null (reading " ++ p ++ ")")
  | v => .ok (getPropD v p)

/-- JavaScript strict equality `===` on the modelled values.  Composite
values (arrays, objects) compare by reference in JavaScript; values read
from a flag definition and values read from a context are distinct
allocations, so they compare unequal. -/
def strictEq : JSVal → JSVal → Bool
  | .undefined, .undefined => true
  | .null, .null => true
  | .bool a, .bool b => a == b
  | .num a, .num b => a == b
  | .str a, .str b => a == b
  | _, _ => false

mutual

/-- JavaScript `String(v)` coercion (arrays join their stringified elements
with commas, `null`/`undefined` elements becoming empty strings). -/
def jsToString : JSVal → String
  | .undefined => "undefined"
  | .null => "null"
  | .bool b => if b then "true" else "false"
  | .num n => toString n
  | .str s => s
  | .arr xs => String.intercalate "," (jsJoinParts xs)
  | .obj _ => "[object Object]"

/-- The element strings of `Array.prototype.join(",")`. -/
def jsJoinParts : List JSVal → List String
  | [] => []
  | .undefined :: rest => "" :: jsJoinParts rest
  | .null :: rest => "" :: jsJoinParts rest
  | v :: rest => jsToString v :: jsJoinParts rest

end

/-- `String(v ?? "")`: the nullish coalescing plus string coercion used to
build bucketing identifiers. -/
def coalesceToString : JSVal → String
  | .undefined => ""
  | .null => ""
  | v => jsToString v

/-- `Object.entries`, in declaration order (arrays list their index/value
pairs; only objects and arrays reach this in the source). -/
def jsEntries : JSVal → List (String × JSVal)
  | .obj fields => fields
  | .arr xs => xs.enum.map (fun p => (toString p.1, p.2))
  | _ => []

/-! ### `src/hash.js` -/

/-- The UTF-16 code units of one character (surrogate pair for characters
beyond the basic multilingual plane), as `charCodeAt` enumerates them. -/
def charUtf16 (c : Char) : List Nat :=
  if c.toNat < 65536 then [c.toNat]
  else [55296 + (c.toNat - 65536) / 1024, 56320 + (c.toNat - 65536) % 1024]

/-- The UTF-16 code units of a string, in order. -/
def utf16CodeUnits (s : String) : List Nat :=
  (s.data.map charUtf16).flatten

/-- One loop iteration of `hashStringToInt`:
`hash ^= code; hash = Math.imul(hash, 16777619) >>> 0`. -/
def fnvStep (hash code : Nat) : Nat :=
  hash.xor code * 16777619 % 4294967296

/-- The 32-bit FNV-1a style loop of `hashStringToInt`, starting from the
offset basis `2166136261`. -/
def fnvHash (codes : List Nat) : Nat :=
  codes.foldl fnvStep 2166136261

/-- A JavaScript number result: either `NaN` or an integer. -/
inductive JSNum : Type where
  | nan
  | num (n : Int)

/-- `hashStringToInt(str, max)` from `src/hash.js`: the FNV loop followed by
`hash % max`.  JavaScript `%` yields `NaN` for `max = 0` and otherwise, for
a non-negative dividend, the remainder modulo `|max|`. -/
def hashStringToInt (str : String) (max : Int) : JSNum :=
  if max = 0 then .nan
  else .num ((fnvHash (utf16CodeUnits str) % max.natAbs : Nat) : Int)

/-- `a < b` where `a` may be `NaN` (any comparison with `NaN` is false). -/
def jsNumLt (a : JSNum) (b : Int) : Bool :=
  match a with
  | .nan => false
  | .num q => q < b

/-- `a >= b` where `a` may be `NaN` (any comparison with `NaN` is false). -/
def jsNumGe (a : JSNum) (b : Int) : Bool :=
  match a with
  | .nan => false
  | .num q => b ≤ q

/-! ### `FeatureFlagClient` -/

/-- An evaluation context: the caller's attribute mapping. -/
abbrev Ctx := List (String × JSVal)

/-- The backing map of an `InMemoryFlagStore`. -/
abbrev FlagStore := List (String × JSVal)

/-- `InMemoryFlagStore.getFlag`: `this._flags[key]`, `undefined` when the
key is absent. -/
def getFlag (store : FlagStore) (key : String) : JSVal :=
  (store.lookup key).getD .undefined

/-- `context[k]` for an arbitrary key value `k` (JavaScript coerces the key
to a string). -/
def ctxGet (context : Ctx) (k : JSVal) : JSVal :=
  (context.lookup (jsToString k)).getD .undefined

/-- The client configuration: `seed` and `defaultRolloutAttribute`, with the
constructor's defaults. -/
structure FeatureFlagClient where
  seed : String := "feature-flags-default-seed"
  defaultRolloutAttribute : String := "userId"

/-- `FeatureFlagClient._computeBucket`:
`hashStringToInt(`{seed}:{key}:{identifier}`, 100)`. -/
def computeBucket (c : FeatureFlagClient) (key identifier : String) : JSNum :=
  hashStringToInt (c.seed ++ ":" ++ key ++ ":" ++ identifier) 100

/-- `FeatureFlagClient._evaluateConditions`: AND over the condition list,
short-circuiting on the first failure; unknown operators fail. -/
def evaluateConditions : List JSVal → Ctx → Except String Bool
  | [], _ => .ok true
  | cond :: rest, context =>
    match getProp cond "attribute" with
    | .error e => .error e
    | .ok attrV =>
      let actual := ctxGet context attrV
      match getProp cond "value" with
      | .error e => .error e
      | .ok expected =>
        match getProp cond "operator" with
        | .error e => .error e
        | .ok op =>
          match op with
          | .str "eq" =>
            if strictEq actual expected then evaluateConditions rest context else .ok false
          | .str "neq" =>
            if strictEq actual expected then .ok false else evaluateConditions rest context
          | .str "in" =>
            match expected with
            | .arr xs =>
              if xs.any (fun x => strictEq x actual) then evaluateConditions rest context
              else .ok false
            | _ => .ok false
          | .str "not_in" =>
            match expected with
            | .arr xs =>
              if xs.any (fun x => strictEq x actual) then .ok false
              else evaluateConditions rest context
            | _ => evaluateConditions rest context
          | _ => .ok false

/-- The rollout block of `FeatureFlagClient.evaluate` (lines guarded by
`flag.rollout && typeof flag.rollout.percentage === "number"`), as the
predicate "the subject is not excluded by the rollout gate". -/
def rolloutGatePasses (c : FeatureFlagClient) (key : String) (rollout : JSVal)
    (context : Ctx) : Except String Bool :=
  if truthy rollout then
    match getProp rollout "percentage" with
    | .error e => .error e
    | .ok pv =>
      match pv with
      | .num p =>
        let percentage := max 0 (min 100 p)
        if percentage = 0 then .ok false
        else if percentage < 100 then
          match getProp rollout "attribute" with
          | .error e => .error e
          | .ok attrV =>
            let attr := if truthy attrV then attrV else .str c.defaultRolloutAttribute
            let identifier := coalesceToString (ctxGet context attr)
            let bucket := computeBucket c key identifier
            if jsNumGe bucket percentage then .ok false else .ok true
        else .ok true
      | _ => .ok true
  else .ok true

/-- The `entries.reduce` of `_selectVariant`: sum of the zero-clamped
variant weights (a non-number `weight` counts as `0`). -/
def sumClampedWeights : List (String × JSVal) → Int → Except String Int
  | [], acc => .ok acc
  | (_, cfg) :: rest, acc =>
    match getProp cfg "weight" with
    | .error e => .error e
    | .ok w =>
      let wn : Int := match w with | .num n => n | _ => 0
      sumClampedWeights rest (acc + max 0 wn)

/-- The cumulative-weight walk of `_selectVariant`: the first variant whose
cumulative clamped weight strictly exceeds the bucket. -/
def walkVariants (bucket : JSNum) : List (String × JSVal) → Int → Except String (Option String)
  | [], _ => .ok none
  | (name, cfg) :: rest, cumulative =>
    match getProp cfg "weight" with
    | .error e => .error e
    | .ok w =>
      let wn : Int := max 0 (match w with | .num n => n | _ => 0)
      let cum := cumulative + wn
      if jsNumLt bucket cum then .ok (some name)
      else walkVariants bucket rest cum

/-- `FeatureFlagClient._selectVariant`. -/
def selectVariant (c : FeatureFlagClient) (key : String) (flag : JSVal)
    (context : Ctx) : Except String (Option String) :=
  match getProp flag "variants" with
  | .error e => .error e
  | .ok variants =>
    if !truthy variants || typeof variants != "object" then .ok none
    else
      let entries := jsEntries variants
      if entries.length = 0 then .ok none
      else
        match sumClampedWeights entries 0 with
        | .error e => .error e
        | .ok totalWeight =>
          if totalWeight ≤ 0 then .ok none
          else
            match getProp flag "rollout" with
            | .error e => .error e
            | .ok rollout =>
              match (if truthy rollout then getProp rollout "attribute" else .ok rollout) with
              | .error e => .error e
              | .ok a =>
                let attr := if truthy a then a else .str c.defaultRolloutAttribute
                let identifier := coalesceToString (ctxGet context attr)
                let bucket := hashStringToInt
                  (c.seed ++ ":variant:" ++ key ++ ":" ++ identifier) totalWeight
                match walkVariants bucket entries 0 with
                | .error e => .error e
                | .ok (some name) => .ok (some name)
                | .ok none =>
                  match entries.getLast? with
                  | some (name, _) => .ok (if name = "" then none else some name)
                  | none => .ok none

/-- The result of `FeatureFlagClient.evaluate`:
`{ enabled, variant: string | null, flag? }`. -/
structure EvalResult where
  enabled : Bool
  variant : Option String
  flag : Option JSVal

/-- `FeatureFlagClient.evaluate`. -/
def evaluate (c : FeatureFlagClient) (store : FlagStore) (key : String)
    (context : Ctx) : Except String EvalResult :=
  let flag := getFlag store key
  if !truthy flag then .ok ⟨false, none, none⟩
  else
    match getProp flag "enabled" with
    | .error e => .error e
    | .ok enabled =>
      if !truthy enabled then .ok ⟨false, none, some flag⟩
      else
        match getProp flag "conditions" with
        | .error e => .error e
        | .ok conds =>
          let condResult : Except String Bool :=
            match conds with
            | .arr cs => if cs.length > 0 then evaluateConditions cs context else .ok true
            | _ => .ok true
          match condResult with
          | .error e => .error e
          | .ok passes =>
            if !passes then .ok ⟨false, none, some flag⟩
            else
              match getProp flag "rollout" with
              | .error e => .error e
              | .ok rollout =>
                match rolloutGatePasses c key rollout context with
                | .error e => .error e
                | .ok pass =>
                  if !pass then .ok ⟨false, none, some flag⟩
                  else
                    match selectVariant c key flag context with
                    | .error e => .error e
                    | .ok variant => .ok ⟨true, variant, some flag⟩

/-- `FeatureFlagClient.isEnabled`. -/
def isEnabled (c : FeatureFlagClient) (store : FlagStore) (key : String)
    (context : Ctx) : Except String Bool :=
  (evaluate c store key context).map (fun r => r.enabled)

/-- `FeatureFlagClient.getVariant`. -/
def getVariant (c : FeatureFlagClient) (store : FlagStore) (key : String)
    (context : Ctx) : Except String (Option String) :=
  (evaluate c store key context).map (fun r => r.variant)

/-! ### Spec-side definitions

Second definitions written from the specification's words (§4.3, §4.4,
§4.5), to be compared with the translations of the source above. -/

/-- Is the value an object/mapping in the sense of §4.5 (a JavaScript
object or array; `typeof` is `"object"` and the value is truthy)? -/
def isMapping : JSVal → Bool
  | .obj _ => true
  | .arr _ => true
  | _ => false

/-- §4.3, one condition: `actual = context[condition.attribute]`; `eq` is
strict equality, `neq` its negation, `in` membership of an array value
(fail on a non-array), `not_in` its inverse (vacuously pass on a
non-array), and any unknown operator fails. -/
def specCondPasses (context : Ctx) (cond : JSVal) : Bool :=
  let actual := ctxGet context (getPropD cond "attribute")
  let expected := getPropD cond "value"
  match getPropD cond "operator" with
  | .str "eq" => strictEq actual expected
  | .str "neq" => !strictEq actual expected
  | .str "in" =>
    match expected with
    | .arr xs => xs.any (fun x => strictEq x actual)
    | _ => false
  | .str "not_in" =>
    match expected with
    | .arr xs => !xs.any (fun x => strictEq x actual)
    | _ => true
  | _ => false

/-- §4.4, for a present rollout whose `percentage` field holds the number
`p` and whose `attribute` field holds `a`: clamp `p` to `[0,100]`; `0` is
always out, `100` always in, otherwise hash
`"{seed}:{flagKey}:{identifier}"` with `max = 100` and compare
`bucket < percentage`.  The identifier is the string coercion of
`context[attribute or default]`, the empty string when absent. -/
def specIsInRollout (seed defaultAttr flagKey : String) (p : Int) (a : JSVal)
    (context : Ctx) : Bool :=
  let percentage := max 0 (min 100 p)
  if percentage = 0 then false
  else if percentage = 100 then true
  else
    let attr := if truthy a then a else .str defaultAttr
    let identifier := coalesceToString (ctxGet context attr)
    let bucket := fnvHash (utf16CodeUnits (seed ++ ":" ++ flagKey ++ ":" ++ identifier)) % 100
    decide ((bucket : Int) < percentage)

/-- §4.5: the zero-clamped weight of one variant configuration (a
non-number `weight` counts as `0`). -/
def weightNum (cfg : JSVal) : Int :=
  match getPropD cfg "weight" with
  | .num n => n
  | _ => 0

/-- §4.5: the total zero-clamped weight of the variant entries. -/
def specTotalWeight (entries : List (String × JSVal)) : Int :=
  (entries.map (fun e => max 0 (weightNum e.2))).sum

/-- §4.5: walk the variants in declaration order accumulating weight; the
chosen variant is the first whose cumulative weight strictly exceeds the
bucket. -/
def specWalk (bucket : Int) : List (String × JSVal) → Int → Option String
  | [], _ => none
  | (name, cfg) :: rest, cumulative =>
    let cum := cumulative + max 0 (weightNum cfg)
    if bucket < cum then some name else specWalk bucket rest cum

/-- §4.5, the variant selector as the specification words it: `absent` when
there is no variants mapping, the mapping is empty, or the clamped total
weight is ≤ 0; otherwise hash `"{seed}:variant:{flagKey}:{identifier}"`
with `max` the total weight (the identifier sourced from
`flag.rollout.attribute`, falling back to the client default), walk the
variants, and fall back to the last variant in order. -/
def specSelectVariant (seed defaultAttr flagKey : String) (flag : JSVal)
    (context : Ctx) : Option String :=
  let variants := getPropD flag "variants"
  if !isMapping variants then none
  else
    let entries := jsEntries variants
    if entries.isEmpty then none
    else
      let total := specTotalWeight entries
      if total ≤ 0 then none
      else
        let a := getPropD (getPropD flag "rollout") "attribute"
        let attr := if truthy a then a else .str defaultAttr
        let identifier := coalesceToString (ctxGet context attr)
        let bucket : Int :=
          (fnvHash (utf16CodeUnits (seed ++ ":variant:" ++ flagKey ++ ":" ++ identifier)) % total.toNat : Nat)
        match specWalk bucket entries 0 with
        | some name => some name
        | none => entries.getLast?.map (fun e => e.1)

/-- The conditions step of the pipeline does not disable the flag: whenever
the flag's `conditions` field is a non-empty array, it evaluates to a pass. -/
def conditionsPass (flag : JSVal) (context : Ctx) : Prop :=
  ∀ cs, getPropD flag "conditions" = .arr cs → 0 < cs.length →
    evaluateConditions cs context = .ok true

/-! ### Helper lemmas -/

theorem getProp_ok (v : JSVal) (p : String) (h : nullish v = false) :
    getProp v p = .ok (getPropD v p) := by
  cases v <;> simp_all [nullish, getProp, getPropD]

theorem truthy_not_nullish (v : JSVal) (h : truthy v = true) :
    nullish v = false := by
  cases v <;> simp_all [truthy, nullish]

theorem char_toNat_lt (c : Char) : c.toNat < 1114112 := by
  rcases c.valid with h | ⟨_, h2⟩
  · exact lt_trans (by exact_mod_cast h) (by norm_num)
  · exact_mod_cast h2

theorem utf16_unit_lt (s : String) : ∀ u ∈ utf16CodeUnits s, u < 65536 := by
  intro u hu
  simp only [utf16CodeUnits, List.mem_flatten, List.mem_map] at hu
  obtain ⟨l, ⟨ch, _, rfl⟩, hul⟩ := hu
  have hch := char_toNat_lt ch
  simp only [charUtf16] at hul
  generalize ch.toNat = n at hul hch
  by_cases hsmall : n < 65536
  · simp [hsmall] at hul
    omega
  · simp [hsmall] at hul
    have h1 : (n - 65536) / 1024 < 1024 := Nat.div_lt_of_lt_mul (by omega)
    have h2 : (n - 65536) % 1024 < 1024 := Nat.mod_lt _ (by norm_num)
    rcases hul with h | h <;> omega

/-! ### Claims -/

/-- C5: for every input string and positive integer `max`, `hashStringToInt`
returns the 32-bit FNV-1a value of the string's 16-bit code units reduced
modulo `max`, an integer in `[0, max)`; the FNV loop starts from the offset
basis `2166136261` and XORs each code unit into the running hash before
multiplying by `16777619` with 32-bit wraparound. -/
theorem c5_hash_fnv_contract (s : String) (m : Int) (h : 0 < m) :
    hashStringToInt s m = JSNum.num ((fnvHash (utf16CodeUnits s) % m.toNat : Nat) : Int) ∧
    (0 : Int) ≤ ((fnvHash (utf16CodeUnits s) % m.toNat : Nat) : Int) ∧
    ((fnvHash (utf16CodeUnits s) % m.toNat : Nat) : Int) < m ∧
    fnvHash [] = 2166136261 ∧
    (∀ codes code, fnvHash (codes ++ [code]) =
      (fnvHash codes).xor code * 16777619 % 4294967296) ∧
    (∀ u ∈ utf16CodeUnits s, u < 65536) := by
  refine ⟨?_, ?_, ?_, rfl, ?_, utf16_unit_lt s⟩
  · have hne : m ≠ 0 := by omega
    have habs : m.natAbs = m.toNat := by omega
    simp [hashStringToInt, hne, habs]
  · positivity
  · have hpos : 0 < m.toNat := by omega
    have := Nat.mod_lt (fnvHash (utf16CodeUnits s)) hpos
    omega
  · intro codes code
    simp [fnvHash, List.foldl_append, fnvStep]

/-- C5 witness at `s = "abc"`, `max = 100`. -/
theorem c5_hash_fnv_contract_witness :
    hashStringToInt "abc" 100 = JSNum.num ((fnvHash (utf16CodeUnits "abc") % (100 : Int).toNat : Nat) : Int) ∧
    (0 : Int) ≤ ((fnvHash (utf16CodeUnits "abc") % (100 : Int).toNat : Nat) : Int) ∧
    ((fnvHash (utf16CodeUnits "abc") % (100 : Int).toNat : Nat) : Int) < 100 ∧
    fnvHash [] = 2166136261 ∧
    (∀ codes code, fnvHash (codes ++ [code]) =
      (fnvHash codes).xor code * 16777619 % 4294967296) ∧
    (∀ u ∈ utf16CodeUnits "abc", u < 65536) :=
  c5_hash_fnv_contract "abc" 100 (by norm_num)

/-- C7: a flag definition whose `enabled` field is `false` evaluates to
`{enabled: false, variant: null}` together with the flag, whatever its
`conditions`, `rollout` and `variants` fields hold. -/
theorem c7_disabled_dominance (c : FeatureFlagClient) (store : FlagStore)
    (key : String) (context : Ctx) (flag : JSVal)
    (hflag : getFlag store key = flag) (ht : truthy flag = true)
    (he : getPropD flag "enabled" = .bool false) :
    evaluate c store key context = .ok ⟨false, none, some flag⟩ := by
  have hnn := truthy_not_nullish flag ht
  simp only [evaluate, hflag, ht, getProp_ok flag "enabled" hnn, he]
  simp [truthy]

/-- C7 witness: a disabled flag with arbitrary junk in the other fields. -/
theorem c7_disabled_dominance_witness :
    evaluate {} [("f", .obj [("enabled", .bool false),
      ("conditions", .arr [.null]), ("rollout", .null),
      ("variants", .obj [("a", .null)])])] "f" [] =
    .ok ⟨false, none, some (.obj [("enabled", .bool false),
      ("conditions", .arr [.null]), ("rollout", .null),
      ("variants", .obj [("a", .null)])])⟩ :=
  c7_disabled_dominance {} _ "f" [] _ rfl rfl rfl

/-- C9 counterexample: `hashStringToInt` performs no validation of `max`;
at `max = 0` it returns the value `NaN` and at `max = -5` it returns the
number `1` — it never fails with an `InvalidArgument` error. -/
theorem c9_counterexample :
    hashStringToInt "abc" 0 = JSNum.nan ∧ hashStringToInt "abc" (-5) = JSNum.num 1 :=
  ⟨rfl, rfl⟩

/-- C9 amended: for a non-positive `max` the hash does not fail: `max = 0`
yields `NaN`, and a negative `max` yields the FNV value reduced modulo
`|max|`. -/
theorem c9_amended_no_error (s : String) (m : Int) (h : m < 0) :
    hashStringToInt s m = JSNum.num ((fnvHash (utf16CodeUnits s) % m.natAbs : Nat) : Int) ∧
    hashStringToInt s 0 = JSNum.nan := by
  have hne : m ≠ 0 := by omega
  constructor
  · simp [hashStringToInt, hne]
  · simp [hashStringToInt]

/-- C9 amended witness at `s = "abc"`, `m = -5`. -/
theorem c9_amended_no_error_witness :
    hashStringToInt "abc" (-5) = JSNum.num ((fnvHash (utf16CodeUnits "abc") % (-5 : Int).natAbs : Nat) : Int) ∧
    hashStringToInt "abc" 0 = JSNum.nan :=
  c9_amended_no_error "abc" (-5) (by norm_num)

theorem gate_skip (c : FeatureFlagClient) (key : String) (r : JSVal) (context : Ctx)
    (hr : ¬(truthy r = true ∧ isNum (getPropD r "percentage") = true)) :
    rolloutGatePasses c key r context = .ok true := by
  by_cases htr : truthy r = true
  · have hnn := truthy_not_nullish r htr
    simp only [rolloutGatePasses, htr, getProp_ok _ _ hnn]
    cases hp : getPropD r "percentage" <;> simp_all [isNum]
  · simp only [rolloutGatePasses]
    simp [htr]

theorem evalConds_all (conds : List JSVal) (context : Ctx)
    (h : ∀ cond ∈ conds, nullish cond = false) :
    evaluateConditions conds context = .ok (conds.all (specCondPasses context)) := by
  induction conds with
  | nil => rfl
  | cons cond rest ih =>
    have hcond := h cond (by simp)
    have hrest : ∀ x ∈ rest, nullish x = false := fun x hx => h x (by simp [hx])
    have ih' := ih hrest
    simp only [evaluateConditions, getProp_ok _ _ hcond, List.all_cons, specCondPasses]
    cases hop : getPropD cond "operator"
    case str sop =>
      by_cases h1 : sop = "eq"
      · subst h1
        cases hse : strictEq (ctxGet context (getPropD cond "attribute")) (getPropD cond "value") <;>
          simp [ih', hse]
      · by_cases h2 : sop = "neq"
        · subst h2
          cases hse : strictEq (ctxGet context (getPropD cond "attribute")) (getPropD cond "value") <;>
            simp [ih', hse]
        · by_cases h3 : sop = "in"
          · subst h3
            cases hv : getPropD cond "value"
            · simp
            · simp
            · simp
            · simp
            · simp
            · rename_i xs
              cases hany : xs.any (fun x => strictEq x (ctxGet context (getPropD cond "attribute"))) <;>
                simp [ih', hany]
            · simp
          · by_cases h4 : sop = "not_in"
            · subst h4
              cases hv : getPropD cond "value"
              · simp [ih']
              · simp [ih']
              · simp [ih']
              · simp [ih']
              · simp [ih']
              · rename_i xs
                cases hany : xs.any (fun x => strictEq x (ctxGet context (getPropD cond "attribute"))) <;>
                  simp [ih', hany]
              · simp [ih']
            · simp [h1, h2, h3, h4]
    all_goals simp

/-- C3: the condition evaluator is the short-circuit AND of the §4.3
per-condition semantics (`specCondPasses`): `true` on the empty list, `eq`
strict equality, `neq` its negation, `in` array membership (failing on a
non-array value), `not_in` its inverse (vacuously passing on a non-array
value), and failure on any unknown operator. -/
theorem c3_condition_evaluator (conds : List JSVal) (context : Ctx)
    (h : ∀ cond ∈ conds, nullish cond = false) :
    evaluateConditions conds context = .ok (conds.all (specCondPasses context)) :=
  evalConds_all conds context h

/-- C3 witness: one `eq` condition over a one-entry context. -/
theorem c3_condition_evaluator_witness :
    evaluateConditions
      [.obj [("attribute", .str "plan"), ("operator", .str "eq"), ("value", .str "pro")]]
      [("plan", .str "pro")] =
    .ok ([JSVal.obj [("attribute", .str "plan"), ("operator", .str "eq"), ("value", .str "pro")]].all
      (specCondPasses [("plan", .str "pro")])) :=
  c3_condition_evaluator _ _ (by intro cond hc; simp at hc; subst hc; rfl)

/-- C10: when the `rollout` field does not hold a truthy value with a
numeric `percentage`, `evaluate` skips the rollout gate entirely: provided
the flag is enabled and its conditions pass, the result is enabled with
variant selection proceeding. -/
theorem c10_nonnumeric_percentage_skips_gate (c : FeatureFlagClient)
    (store : FlagStore) (key : String) (context : Ctx) (flag : JSVal)
    (hflag : getFlag store key = flag) (ht : truthy flag = true)
    (he : truthy (getPropD flag "enabled") = true)
    (hc : conditionsPass flag context)
    (hr : ¬(truthy (getPropD flag "rollout") = true ∧
        isNum (getPropD (getPropD flag "rollout") "percentage") = true)) :
    evaluate c store key context =
      (selectVariant c key flag context).map (fun v => ⟨true, v, some flag⟩) := by
  have hnn := truthy_not_nullish flag ht
  simp only [evaluate, hflag, ht, getProp_ok _ _ hnn, he, gate_skip c key _ context hr]
  cases hcs : getPropD flag "conditions"
  case arr cs =>
    by_cases hlen : cs.length > 0
    · simp only [hlen, if_true, hc cs hcs hlen]
      cases hv : selectVariant c key flag context <;> simp [Except.map]
    · simp only [hlen]
      cases hv : selectVariant c key flag context <;> simp [Except.map]
  all_goals {
    cases hv : selectVariant c key flag context <;> simp [Except.map]
  }

/-- C10 witness: a rollout whose `percentage` is the string `"soon"`. -/
theorem c10_nonnumeric_percentage_skips_gate_witness :
    evaluate {} [("f", .obj [("enabled", .bool true),
        ("rollout", .obj [("percentage", .str "soon")])])] "f" [] =
      (selectVariant {} "f" (.obj [("enabled", .bool true),
        ("rollout", .obj [("percentage", .str "soon")])]) []).map
        (fun v => ⟨true, v, some (.obj [("enabled", .bool true),
          ("rollout", .obj [("percentage", .str "soon")])])⟩) :=
  c10_nonnumeric_percentage_skips_gate {} _ "f" [] _ rfl rfl rfl
    (fun cs hcs => by simp [getPropD, List.lookup] at hcs)
    (by decide)

theorem hash100 (s : String) :
    hashStringToInt s 100 = JSNum.num ((fnvHash (utf16CodeUnits s) % 100 : Nat) : Int) := by
  norm_num [hashStringToInt]

theorem gate_cmp (pc : Int) (bk : Nat) :
    (if jsNumGe (JSNum.num bk) pc = true then (Except.ok false : Except String Bool) else .ok true) =
      .ok (decide ((bk : Int) < pc)) := by
  simp only [jsNumGe]
  by_cases h : pc ≤ (bk : Int)
  · have hn : ¬((bk : Int) < pc) := by omega
    simp [h, hn]
  · have hl : (bk : Int) < pc := by omega
    simp [h, hl]

theorem gate_num (c : FeatureFlagClient) (key : String) (context : Ctx)
    (rollout : JSVal) (p : Int) (htr : truthy rollout = true)
    (hp : getPropD rollout "percentage" = .num p) :
    rolloutGatePasses c key rollout context =
      .ok (specIsInRollout c.seed c.defaultRolloutAttribute key p
        (getPropD rollout "attribute") context) := by
  have hnn := truthy_not_nullish rollout htr
  simp only [rolloutGatePasses, htr, getProp_ok _ _ hnn, hp, specIsInRollout, computeBucket,
    hash100]
  by_cases h0 : max 0 (min 100 p) = 0
  · simp [h0]
  · by_cases h100 : max 0 (min 100 p) < 100
    · have hne : max 0 (min 100 p) ≠ 100 := by omega
      simp only [h0, h100, hne, if_true, if_false, gate_cmp]
    · have heq : max 0 (min 100 p) = 100 := by omega
      simp [h0, h100, heq]

theorem spec_gate_mono (seed da key : String) (a : JSVal) (context : Ctx)
    (p p' : Int) (hle : p ≤ p')
    (h : specIsInRollout seed da key p a context = true) :
    specIsInRollout seed da key p' a context = true := by
  have hmono : max 0 (min 100 p) ≤ max 0 (min 100 p') :=
    max_le_max (le_refl 0) (min_le_min (le_refl 100) hle)
  have hub : max 0 (min 100 p) ≤ 100 := by omega
  have hlb : 0 ≤ max 0 (min 100 p) := by omega
  simp only [specIsInRollout] at h ⊢
  by_cases h0 : max 0 (min 100 p) = 0
  · simp [h0] at h
  · by_cases h0' : max 0 (min 100 p') = 0
    · omega
    · by_cases h100 : max 0 (min 100 p) = 100
      · have h100' : max 0 (min 100 p') = 100 := by omega
        simp [h0', h100']
      · by_cases h100' : max 0 (min 100 p') = 100
        · simp [h0', h100']
        · simp only [h0, h100, if_false, decide_eq_true_eq] at h
          simp only [h0', h100', if_false, decide_eq_true_eq]
          omega

/-- C4: the rollout gate of `evaluate` realises the §4.4 bucketer: for a
present rollout with numeric `percentage` it clamps to `[0,100]`, excludes
at `0`, includes at `100`, and otherwise includes exactly when the hash of
`"{seed}:{flagKey}:{identifier}"` with `max = 100` is strictly below the
clamped percentage, the identifier being the string coercion of
`context[rollout.attribute or default]` (empty when absent); an absent
rollout always includes the subject. -/
theorem c4_rollout_bucketer (c : FeatureFlagClient) (key : String)
    (context : Ctx) (rollout : JSVal) (p : Int)
    (htr : truthy rollout = true) (hp : getPropD rollout "percentage" = .num p) :
    rolloutGatePasses c key rollout context =
      .ok (specIsInRollout c.seed c.defaultRolloutAttribute key p
        (getPropD rollout "attribute") context) ∧
    rolloutGatePasses c key .undefined context = .ok true :=
  ⟨gate_num c key context rollout p htr hp, rfl⟩

/-- C4 witness at percentage 50 with an explicit attribute. -/
theorem c4_rollout_bucketer_witness :
    rolloutGatePasses {} "f"
        (.obj [("percentage", .num 50), ("attribute", .str "tenantId")]) [] =
      .ok (specIsInRollout (FeatureFlagClient.seed {}) (FeatureFlagClient.defaultRolloutAttribute {}) "f" 50
        (getPropD (.obj [("percentage", .num 50), ("attribute", .str "tenantId")]) "attribute") []) ∧
    rolloutGatePasses {} "f" .undefined [] = .ok true :=
  c4_rollout_bucketer {} "f" [] _ 50 rfl rfl

/-- C6: rollout inclusion is monotone in the percentage — for a fixed
seed, flag key, bucketing attribute and context, a subject inside the
rollout at percentage `p` stays inside at any `p' ≥ p`. -/
theorem c6_rollout_monotone (c : FeatureFlagClient) (key : String)
    (context : Ctx) (a : JSVal) (p p' : Int) (hle : p ≤ p')
    (h : rolloutGatePasses c key
      (.obj [("percentage", .num p), ("attribute", a)]) context = .ok true) :
    rolloutGatePasses c key
      (.obj [("percentage", .num p'), ("attribute", a)]) context = .ok true := by
  have ha : getPropD (JSVal.obj [("percentage", JSVal.num p), ("attribute", a)]) "attribute" = a := rfl
  have ha' : getPropD (JSVal.obj [("percentage", JSVal.num p'), ("attribute", a)]) "attribute" = a := rfl
  rw [gate_num c key context (.obj [("percentage", JSVal.num p), ("attribute", a)]) p rfl rfl,
    ha] at h
  rw [gate_num c key context (.obj [("percentage", JSVal.num p'), ("attribute", a)]) p' rfl rfl,
    ha']
  simp only [Except.ok.injEq] at h ⊢
  exact spec_gate_mono c.seed c.defaultRolloutAttribute key a context p p' hle h

/-- C6 witness: inclusion at clamped percentage 100 persists at 150. -/
theorem c6_rollout_monotone_witness :
    rolloutGatePasses {} "f"
      (.obj [("percentage", .num 150), ("attribute", .str "userId")]) [] = .ok true :=
  c6_rollout_monotone {} "f" [] (.str "userId") 100 150 (by norm_num) rfl

theorem walk_total (bk : JSNum) (entries : List (String × JSVal)) (acc : Int)
    (h : ∀ e ∈ entries, nullish e.2 = false) :
    ∃ v, walkVariants bk entries acc = .ok v := by
  induction entries generalizing acc with
  | nil => exact ⟨none, rfl⟩
  | cons e rest ih =>
    obtain ⟨name, cfg⟩ := e
    have hcfg : nullish cfg = false := h (name, cfg) (by simp)
    have hrest : ∀ x ∈ rest, nullish x.2 = false := fun x hx => h x (by simp [hx])
    simp only [walkVariants, getProp_ok _ _ hcfg]
    split
    · exact ⟨_, rfl⟩
    · exact ih _ hrest

theorem walk_last_total (bk : JSNum) (entries : List (String × JSVal))
    (h : ∀ e ∈ entries, nullish e.2 = false) :
    ∃ v, (match walkVariants bk entries 0 with
      | .error e => (.error e : Except String (Option String))
      | .ok (some name) => .ok (some name)
      | .ok none =>
        match entries.getLast? with
        | some (name, _) => .ok (if name = "" then none else some name)
        | none => .ok none) = .ok v := by
  obtain ⟨v, hv⟩ := walk_total bk entries 0 h
  rw [hv]
  cases v
  · dsimp only
    split
    · exact ⟨_, rfl⟩
    · exact ⟨none, rfl⟩
  · exact ⟨_, rfl⟩

theorem sum_eq (entries : List (String × JSVal)) (acc : Int)
    (h : ∀ e ∈ entries, nullish e.2 = false) :
    sumClampedWeights entries acc = .ok (acc + specTotalWeight entries) := by
  induction entries generalizing acc with
  | nil => simp [sumClampedWeights, specTotalWeight]
  | cons e rest ih =>
    obtain ⟨name, cfg⟩ := e
    have hcfg : nullish cfg = false := h (name, cfg) (by simp)
    have hrest : ∀ x ∈ rest, nullish x.2 = false := fun x hx => h x (by simp [hx])
    simp only [sumClampedWeights, getProp_ok _ _ hcfg, ih _ hrest, specTotalWeight,
      List.map_cons, List.sum_cons, weightNum]
    congr 1
    cases hw : getPropD cfg "weight" <;> first | (simp; ring) | simp

theorem selectVariant_total (c : FeatureFlagClient) (key : String) (flag : JSVal)
    (context : Ctx) (ht : truthy flag = true)
    (hvars : ∀ e ∈ jsEntries (getPropD flag "variants"), nullish e.2 = false) :
    ∃ v, selectVariant c key flag context = .ok v := by
  have hnn := truthy_not_nullish flag ht
  simp only [selectVariant, getProp_ok _ _ hnn, sum_eq _ 0 hvars]
  split
  · exact ⟨none, rfl⟩
  · split
    · exact ⟨none, rfl⟩
    · split
      · exact ⟨none, rfl⟩
      · by_cases htr : truthy (getPropD flag "rollout") = true
        · have hnnr := truthy_not_nullish _ htr
          simp only [htr, if_true, getProp_ok _ _ hnnr]
          exact walk_last_total _ _ hvars
        · rw [Bool.not_eq_true] at htr
          simp only [htr, Bool.false_eq_true, if_false]
          exact walk_last_total _ _ hvars

theorem gate_total (c : FeatureFlagClient) (key : String) (r : JSVal) (context : Ctx) :
    ∃ b, rolloutGatePasses c key r context = .ok b := by
  by_cases htr : truthy r = true
  · have hnn := truthy_not_nullish r htr
    simp only [rolloutGatePasses, htr, getProp_ok _ _ hnn, if_true]
    cases hp : getPropD r "percentage" <;> try exact ⟨true, rfl⟩
    rename_i p
    by_cases h0 : max 0 (min 100 p) = 0
    · exact ⟨false, by simp [h0]⟩
    · by_cases h100 : max 0 (min 100 p) < 100
      · simp only [h0, h100, if_false, if_true]
        cases hb : computeBucket c key (coalesceToString (ctxGet context
          (if truthy (getPropD r "attribute") = true then getPropD r "attribute"
           else .str c.defaultRolloutAttribute)))
        · exact ⟨true, by simp [jsNumGe]⟩
        · rename_i bk
          by_cases hge : jsNumGe (JSNum.num bk) (max 0 (min 100 p)) = true
          · exact ⟨false, by simp [hge]⟩
          · exact ⟨true, by simp [hge]⟩
      · exact ⟨true, by simp [h0, h100]⟩
  · exact ⟨true, by simp [rolloutGatePasses, htr]⟩

theorem condStep_total (flag : JSVal) (context : Ctx)
    (hconds : ∀ cs, getPropD flag "conditions" = .arr cs → ∀ cond ∈ cs, nullish cond = false) :
    ∃ pb, (match getPropD flag "conditions" with
      | .arr cs => if cs.length > 0 then evaluateConditions cs context else (.ok true : Except String Bool)
      | _ => .ok true) = .ok pb := by
  cases hcs : getPropD flag "conditions" <;> try exact ⟨true, rfl⟩
  rename_i cs
  dsimp only
  split
  · exact ⟨_, evalConds_all cs context (hconds cs hcs)⟩
  · exact ⟨true, rfl⟩

/-- C8 counterexample: `evaluate` is not total over arbitrary malformed
flag data — a condition entry that is `null` makes the source read
`cond.attribute` off `null`, a thrown `TypeError`. -/
theorem c8_counterexample :
    evaluate {} [("f", .obj [("enabled", .bool true), ("conditions", .arr [.null])])] "f" [] =
      .error "TypeError: Cannot read properties of null (reading attribute)" := rfl

/-- C8 amended: `evaluate` never throws and always returns a result for
arbitrary flag data, provided every entry of a `conditions` array and
every variant configuration value is itself not `null`/`undefined`; for
such data it degrades to disabled or variant-absent instead of raising. -/
theorem c8_amended_evaluate_total (c : FeatureFlagClient) (store : FlagStore)
    (key : String) (context : Ctx) (flag : JSVal)
    (hflag : getFlag store key = flag)
    (hconds : ∀ cs, getPropD flag "conditions" = .arr cs → ∀ cond ∈ cs, nullish cond = false)
    (hvars : ∀ e ∈ jsEntries (getPropD flag "variants"), nullish e.2 = false) :
    ∃ r, evaluate c store key context = .ok r := by
  by_cases ht : truthy flag = true
  · have hnn := truthy_not_nullish flag ht
    by_cases he : truthy (getPropD flag "enabled") = true
    · obtain ⟨pb, hpb⟩ := condStep_total flag context hconds
      simp only [evaluate, hflag, ht, getProp_ok _ _ hnn, he, hpb, Bool.not_true,
        Bool.false_eq_true, if_false]
      cases pb
      · exact ⟨⟨false, none, some flag⟩, by simp⟩
      · obtain ⟨gb, hgb⟩ := gate_total c key (getPropD flag "rollout") context
        rw [hgb]
        cases gb
        · exact ⟨⟨false, none, some flag⟩, by simp⟩
        · obtain ⟨v, hv⟩ := selectVariant_total c key flag context ht hvars
          rw [hv]
          exact ⟨⟨true, v, some flag⟩, by simp⟩
    · rw [Bool.not_eq_true] at he
      exact ⟨⟨false, none, some flag⟩, by
        simp [evaluate, hflag, ht, getProp_ok _ _ hnn, he]⟩
  · rw [Bool.not_eq_true] at ht
    exact ⟨⟨false, none, none⟩, by simp [evaluate, hflag, ht]⟩

/-- C8 amended witness: heavily malformed (but null-free) flag data still
yields a result. -/
theorem c8_amended_evaluate_total_witness :
    ∃ r, evaluate {} [("f", .obj [("enabled", .num 1), ("conditions", .str "nope"),
      ("rollout", .num 7), ("variants", .arr [.obj [("weight", .str "x")]])])] "f" [] = .ok r :=
  c8_amended_evaluate_total {} _ "f" [] _ rfl
    (by intro cs hcs; simp [getFlag, getPropD, List.lookup] at hcs)
    (by decide)

theorem specTotalWeight_cons (name : String) (cfg : JSVal) (rest : List (String × JSVal)) :
    specTotalWeight ((name, cfg) :: rest) = max 0 (weightNum cfg) + specTotalWeight rest := by
  simp [specTotalWeight]

theorem specWalk_not_none (bk : Int) (entries : List (String × JSVal)) (acc : Int)
    (h1 : acc ≤ bk) (h2 : bk < acc + specTotalWeight entries) :
    specWalk bk entries acc ≠ none := by
  induction entries generalizing acc with
  | nil =>
    simp [specTotalWeight] at h2
    omega
  | cons e rest ih =>
    obtain ⟨name, cfg⟩ := e
    rw [specTotalWeight_cons] at h2
    simp only [specWalk]
    by_cases hlt : bk < acc + max 0 (weightNum cfg)
    · simp [hlt]
    · simp only [hlt, if_false]
      exact ih (acc + max 0 (weightNum cfg)) (by omega) (by omega)

theorem walk_eq (bk : Int) (entries : List (String × JSVal)) (acc : Int)
    (h : ∀ e ∈ entries, nullish e.2 = false) :
    walkVariants (.num bk) entries acc = .ok (specWalk bk entries acc) := by
  induction entries generalizing acc with
  | nil => rfl
  | cons e rest ih =>
    obtain ⟨name, cfg⟩ := e
    have hcfg : nullish cfg = false := h (name, cfg) (by simp)
    have hrest : ∀ x ∈ rest, nullish x.2 = false := fun x hx => h x (by simp [hx])
    simp only [walkVariants, specWalk, getProp_ok _ _ hcfg, jsNumLt, weightNum]
    by_cases hlt : bk < acc + max 0 (match getPropD cfg "weight" with | .num n => n | _ => 0)
    · simp [hlt]
    · simp [hlt, ih _ hrest]

theorem falsy_getPropD (r : JSVal) (p : String) (h : truthy r = false) :
    getPropD r p = .undefined := by
  cases r <;> simp_all [truthy, getPropD]

theorem hash_pos (s : String) (t : Int) (h : 0 < t) :
    hashStringToInt s t = JSNum.num ((fnvHash (utf16CodeUnits s) % t.toNat : Nat) : Int) := by
  have hne : t ≠ 0 := by omega
  have habs : t.natAbs = t.toNat := by omega
  simp [hashStringToInt, hne, habs]

theorem walk_last_eq (bk : Nat) (entries : List (String × JSVal))
    (h : ∀ e ∈ entries, nullish e.2 = false)
    (hlt : bk < (specTotalWeight entries).toNat) :
    (match walkVariants (.num (bk : Int)) entries 0 with
      | .error e => (.error e : Except String (Option String))
      | .ok (some name) => .ok (some name)
      | .ok none =>
        match entries.getLast? with
        | some (name, _) => .ok (if name = "" then none else some name)
        | none => .ok none) =
      .ok (match specWalk (bk : Int) entries 0 with
        | some name => some name
        | none => entries.getLast?.map (fun e => e.1)) := by
  rw [walk_eq _ _ 0 h]
  cases hW : specWalk (bk : Int) entries 0 with
  | none =>
    refine absurd hW (specWalk_not_none _ _ 0 (by positivity) ?_)
    omega
  | some name => rfl

/-- C2: the variant selector agrees with the §4.5 specification
(`specSelectVariant`): it is `absent` exactly when there is no variants
object/mapping, the mapping is empty, or the zero-clamped total weight is
≤ 0; otherwise it hashes `"{seed}:variant:{flagKey}:{identifier}"` with
`max` the total weight — the identifier resolved from
`flag.rollout.attribute` with fallback to the client default, independently
of the rollout gate — and walks the variants in declaration order, choosing
the first whose cumulative weight strictly exceeds the bucket, with the
last variant as fallback. -/
theorem c2_variant_selector (c : FeatureFlagClient) (key : String) (flag : JSVal)
    (context : Ctx) (ht : truthy flag = true)
    (hvars : ∀ e ∈ jsEntries (getPropD flag "variants"), nullish e.2 = false) :
    selectVariant c key flag context =
      .ok (specSelectVariant c.seed c.defaultRolloutAttribute key flag context) := by
  have hnn := truthy_not_nullish flag ht
  have hmap : (!truthy (getPropD flag "variants") || typeof (getPropD flag "variants") != "object")
      = !isMapping (getPropD flag "variants") := by
    cases getPropD flag "variants" <;> simp [truthy, typeof, isMapping]
  simp only [selectVariant, specSelectVariant, getProp_ok _ _ hnn, sum_eq _ 0 hvars, hmap]
  cases hM : isMapping (getPropD flag "variants")
  · simp
  · simp only [Bool.not_true, Bool.false_eq_true, if_false]
    cases hEq : jsEntries (getPropD flag "variants") with
    | nil => simp
    | cons e es =>
      rw [hEq] at hvars
      simp only [List.length_cons, List.isEmpty_cons, Nat.succ_ne_zero, if_false, zero_add,
        Bool.false_eq_true]
      by_cases hT : specTotalWeight (e :: es) ≤ 0
      · simp [hT]
      · simp only [hT, if_false]
        have hTpos : 0 < specTotalWeight (e :: es) := by omega
        by_cases htr : truthy (getPropD flag "rollout") = true
        · have hnnr := truthy_not_nullish _ htr
          simp only [htr, if_true, getProp_ok _ _ hnnr]
          rw [hash_pos _ _ hTpos]
          exact walk_last_eq _ _ hvars (Nat.mod_lt _ (by omega))
        · rw [Bool.not_eq_true] at htr
          have hpa : getPropD (getPropD flag "rollout") "attribute" = .undefined :=
            falsy_getPropD _ _ htr
          have hu : truthy JSVal.undefined = false := rfl
          simp only [htr, hpa, hu, Bool.false_eq_true, if_false]
          rw [hash_pos _ _ hTpos]
          exact walk_last_eq _ _ hvars (Nat.mod_lt _ (by omega))

/-- C2 witness: a 50/50 split between two variants. -/
theorem c2_variant_selector_witness :
    selectVariant {} "f" (.obj [("enabled", .bool true),
      ("variants", .obj [("control", .obj [("weight", .num 50)]),
        ("b", .obj [("weight", .num 50)])])]) [("userId", .str "user-1")] =
      .ok (specSelectVariant (FeatureFlagClient.seed {}) (FeatureFlagClient.defaultRolloutAttribute {}) "f"
        (.obj [("enabled", .bool true),
          ("variants", .obj [("control", .obj [("weight", .num 50)]),
            ("b", .obj [("weight", .num 50)])])]) [("userId", .str "user-1")]) :=
  c2_variant_selector {} "f" _ _ rfl (by decide)

theorem condStep_pass (flag : JSVal) (context : Ctx) (hc : conditionsPass flag context) :
    (match getPropD flag "conditions" with
      | JSVal.arr cs =>
        if cs.length > 0 then evaluateConditions cs context else (.ok true : Except String Bool)
      | _ => .ok true) = .ok true := by
  cases hcs : getPropD flag "conditions" <;> try rfl
  rename_i cs
  dsimp only
  split
  · rename_i hlen
    exact hc cs hcs hlen
  · rfl

/-- C1: `evaluate` follows the five-step short-circuit pipeline: a key
that is absent from the store yields `{enabled:false, variant:null}` with
no `flag` field; a definition with `enabled = false` yields the same
together with the flag; a present non-empty condition array that fails
disables with the flag; a rollout gate that excludes the subject disables
with the flag; otherwise the result is enabled with the variant computed
by the variant selector and the flag. -/
theorem c1_evaluate_pipeline (c : FeatureFlagClient) (store : FlagStore) (key : String)
    (context : Ctx) (flag : JSVal) (hflag : getFlag store key = flag) :
    (store.lookup key = none →
      evaluate c store key context = .ok ⟨false, none, none⟩) ∧
    (truthy flag = true → getPropD flag "enabled" = .bool false →
      evaluate c store key context = .ok ⟨false, none, some flag⟩) ∧
    (∀ cs, truthy flag = true → truthy (getPropD flag "enabled") = true →
      getPropD flag "conditions" = .arr cs → 0 < cs.length →
      evaluateConditions cs context = .ok false →
      evaluate c store key context = .ok ⟨false, none, some flag⟩) ∧
    (truthy flag = true → truthy (getPropD flag "enabled") = true →
      conditionsPass flag context →
      rolloutGatePasses c key (getPropD flag "rollout") context = .ok false →
      evaluate c store key context = .ok ⟨false, none, some flag⟩) ∧
    (truthy flag = true → truthy (getPropD flag "enabled") = true →
      conditionsPass flag context →
      rolloutGatePasses c key (getPropD flag "rollout") context = .ok true →
      evaluate c store key context =
        (selectVariant c key flag context).map (fun v => ⟨true, v, some flag⟩)) := by
  refine ⟨?_, ?_, ?_, ?_, ?_⟩
  · intro hnone
    have hu : flag = .undefined := by rw [← hflag]; simp [getFlag, hnone]
    simp [evaluate, hflag, hu, truthy]
  · intro ht he
    have hnn := truthy_not_nullish flag ht
    simp only [evaluate, hflag, ht, getProp_ok _ _ hnn, he]
    simp [truthy]
  · intro cs ht he hcs hlen hfail
    have hnn := truthy_not_nullish flag ht
    simp only [evaluate, hflag, ht, getProp_ok _ _ hnn, he, hcs, hlen, hfail, Bool.not_true,
      Bool.false_eq_true, if_false, if_true]
    simp
  · intro ht he hcond hgate
    have hnn := truthy_not_nullish flag ht
    simp only [evaluate, hflag, ht, getProp_ok _ _ hnn, he, condStep_pass flag context hcond,
      hgate, Bool.not_true, Bool.false_eq_true, if_false]
    simp
  · intro ht he hcond hgate
    have hnn := truthy_not_nullish flag ht
    simp only [evaluate, hflag, ht, getProp_ok _ _ hnn, he, condStep_pass flag context hcond,
      hgate, Bool.not_true, Bool.false_eq_true, if_false]
    cases hv : selectVariant c key flag context <;> simp [Except.map]

/-- C1 witness: the full path of the pipeline — an enabled flag at rollout
percentage 100 with one weighted variant. -/
theorem c1_evaluate_pipeline_witness :
    evaluate {} [("f", .obj [("enabled", .bool true),
      ("rollout", .obj [("percentage", .num 100)]),
      ("variants", .obj [("a", .obj [("weight", .num 1)])])])] "f" [] =
      (selectVariant {} "f" (.obj [("enabled", .bool true),
        ("rollout", .obj [("percentage", .num 100)]),
        ("variants", .obj [("a", .obj [("weight", .num 1)])])]) []).map
        (fun v => ⟨true, v, some (.obj [("enabled", .bool true),
          ("rollout", .obj [("percentage", .num 100)]),
          ("variants", .obj [("a", .obj [("weight", .num 1)])])])⟩) :=
  (c1_evaluate_pipeline {} _ "f" [] _ rfl).2.2.2.2 rfl rfl
    (fun cs hcs => by simp [getFlag, getPropD, List.lookup] at hcs)
    rfl

end FeatureFlags
